import Mathlib

/-
Verification of the antigravity-quota extension core (src/src/extension.ts).

The TypeScript source is shallowly embedded: the mutable fields of
`QuotaProvider` become a `RefreshState` record, `async` methods become pure
state-transition functions parameterised by the outcomes of their awaited
calls (an outcome that may be a thrown exception is an `Except Unit _`), and
the OS / HTTP effects (`execAsync`, `fetch`) become oracle functions supplied
as arguments.  JavaScript numbers are modelled as `Rat`; JavaScript regular
expressions are modelled by explicit character-list scanners that mirror the
particular patterns used in the source.
-/

namespace Quota

/-! ## Data model (interfaces `QuotaInfo`, `ClientModelConfig` of extension.ts)

Fields that the JSON payload may omit (the source reads them with `?.` and
`?? 1`) are `Option`s. -/

structure QuotaInfo where
  remainingFraction : Option Rat
  resetTime : Option String
deriving DecidableEq

structure ClientModelConfig where
  label : String
  quotaInfo : Option QuotaInfo
deriving DecidableEq

structure ProcessInfo where
  pid : String
  csrf : String
deriving DecidableEq

/-- `const REFRESH_INTERVAL_MS = 5 * 60 * 1000` -/
def REFRESH_INTERVAL_MS : Int := 5 * 60 * 1000

/-! ## JavaScript string helpers

These are written over `List Char` so that every definition evaluates by
kernel reduction on concrete strings. -/

/-- JS `s.trim()` on the character list (ASCII whitespace suffices for the
process-table and socket-table outputs handled here). -/
def listTrim (l : List Char) : List Char :=
  ((l.dropWhile Char.isWhitespace).reverse.dropWhile Char.isWhitespace).reverse

/-- JS `s.split(sep)` for a single-character separator class: every separator
occurrence splits, and adjacent separators produce empty fields. -/
def listSplit (p : Char → Bool) : List Char → List (List Char)
  | [] => [[]]
  | c :: rest =>
    match listSplit p rest with
    | [] => [[]]
    | h :: t => if p c then [] :: h :: t else (c :: h) :: t

/-- JS `s.trim().split(/\s+/)`: on the empty trimmed string JS yields `[""]`;
otherwise the fields are the maximal runs of non-whitespace characters. -/
def jsSplitWs (s : String) : List String :=
  let t := listTrim s.data
  if t.isEmpty then [""]
  else ((listSplit Char.isWhitespace t).map String.mk).filter (fun x => x ≠ "")

/-- JS `stdout.split(/[\r\n]+/)`.  Splitting at every single `\r`/`\n`
differs from splitting at separator runs only by extra `""` entries, and an
empty line never passes the five-field test applied to each line. -/
def splitLines (s : String) : List String :=
  (listSplit (fun c => c = '\r' || c = '\n') s.data).map String.mk

/-- JS `[...new Set(l)]` / incremental `Set.add` then `Array.from`:
first-occurrence order deduplication. -/
def jsSetToArray (l : List String) : List String :=
  l.foldl (fun acc x => if x ∈ acc then acc else acc ++ [x]) []

/-- JS `Math.round`, which is `⌊x + 1/2⌋` on numbers. -/
def jsMathRound (q : Rat) : Int := Int.floor (q + (1 : Rat) / 2)

/-- JS `/^\d+$/.test(s)`: `s` is a non-empty string of decimal digits. -/
def regexNumTest (s : String) : Bool :=
  !s.isEmpty && s.data.all Char.isDigit

/-! ## `extractCsrf` (extension.ts lines 271-276)

The source tries regex `--csrf_token\s+([^\s]+)` first, then
`--csrf_token=([^\s]+)`, and yields capture 1 or `''`.
Each regex is modelled by a leftmost-match scanner: at every position, try to
match the literal flag, then the separator, then a maximal non-whitespace
token; on failure advance one character. -/

def csrfFlagChars : List Char := "--csrf_token".data

/-- Scanner for regex `--csrf_token\s+([^\s]+)`. -/
def findCsrfSpace : List Char → Option (List Char)
  | [] => none
  | c :: rest =>
    if (c :: rest).take 12 = csrfFlagChars then
      let after := (c :: rest).drop 12
      let sp := after.takeWhile Char.isWhitespace
      let tok := (after.drop sp.length).takeWhile (fun ch => !ch.isWhitespace)
      if !sp.isEmpty && !tok.isEmpty then some tok else findCsrfSpace rest
    else findCsrfSpace rest

/-- Scanner for regex `--csrf_token=([^\s]+)`. -/
def findCsrfEq : List Char → Option (List Char)
  | [] => none
  | c :: rest =>
    if (c :: rest).take 13 = ("--csrf_token=".data) then
      let tok := ((c :: rest).drop 13).takeWhile (fun ch => !ch.isWhitespace)
      if !tok.isEmpty then some tok else findCsrfEq rest
    else findCsrfEq rest

def extractCsrf (text : String) : String :=
  match findCsrfSpace text.data with
  | some tok => String.mk tok
  | none =>
    match findCsrfEq text.data with
    | some tok => String.mk tok
    | none => ""

/-! ## `getProcessInfo` (extension.ts lines 215-269) -/

/-- One entry of the parsed PowerShell JSON after the source's normalisation:
`pid` is `String(proc.ProcessId)` and `commandLine` is `proc.CommandLine`
(absent when the JSON lacks the field; the source replaces absence by `''`). -/
structure WinProc where
  processId : String
  commandLine : Option String
deriving DecidableEq

/-- The Windows loop (lines 242-250): take the first entry whose command line
is non-empty and whose pid string passes the numeric regex; entries failing
the test are skipped. -/
def getProcessInfoWindows : List WinProc → Option ProcessInfo
  | [] => none
  | p :: rest =>
    let pidStr := p.processId
    let cl := p.commandLine.getD ""
    if cl ≠ "" && pidStr ≠ "" && regexNumTest pidStr then
      some ⟨pidStr, extractCsrf cl⟩
    else getProcessInfoWindows rest

/-- The Unix branch (lines 253-263): only the first line of the `ps` output is
inspected; its second whitespace-separated field must pass the numeric regex. -/
def getProcessInfoUnix (stdout : String) : Option ProcessInfo :=
  let line := (((listSplit (fun c => c = '\n') stdout.data).map String.mk).headD "")
  if line = "" then none
  else
    match (jsSplitWs line).get? 1 with
    | none => none
    | some pidStr =>
      if regexNumTest pidStr then some ⟨pidStr, extractCsrf line⟩ else none

/-- Full `getProcessInfo`.  `exec` is the `execAsync` oracle (`.error` models a
rejected promise, caught at line 265 and turned into `null`); `parseJson`
models `JSON.parse` plus the object-vs-array normalisation of lines 234-240
(`.error` models a parse exception). -/
def getProcessInfo (isWindows : Bool) (exec : String → Except Unit String)
    (parseJson : String → Except Unit (List WinProc)) : Option ProcessInfo :=
  if isWindows then
    match exec "powershell Get-CimInstance Win32_Process" with
    | .error _ => none
    | .ok stdout =>
      let trimmed := String.mk (listTrim stdout.data)
      if trimmed = "" then none
      else
        match parseJson trimmed with
        | .error _ => none
        | .ok procs => getProcessInfoWindows procs
  else
    match exec "ps aux | grep language_server | grep -v grep" with
    | .error _ => none
    | .ok stdout => getProcessInfoUnix stdout

/-! ## `getListeningPorts` (extension.ts lines 278-330) -/

/-- Regex `:(\d+)$` applied to the local-address field: it matches exactly
when the string ends in a colon followed by one or more digits, and the
capture is that maximal digit suffix. -/
def matchPortSuffix (s : String) : Option String :=
  let rev := s.data.reverse
  let dRev := rev.takeWhile Char.isDigit
  let restRev := rev.dropWhile Char.isDigit
  if dRev.isEmpty then none
  else
    match restRev with
    | ':' :: _ => some (String.mk dRev.reverse)
    | _ => none

/-- One line of `netstat -ano` output (lines 293-312): at least five
whitespace-separated fields, protocol `TCP`, state `LISTENING`, owning pid
equal to the target, and the port extracted from the local-address field. -/
def winLinePort (pidStr : String) (line : String) : Option String :=
  let parts := jsSplitWs line
  if parts.length ≥ 5 then
    let protocol := parts.getD 0 ""
    let localAddr := parts.getD 1 ""
    let st := parts.getD 3 ""
    let linePid := parts.getD 4 ""
    if protocol = "TCP" && st = "LISTENING" && linePid = pidStr then
      matchPortSuffix localAddr
    else none
  else none

/-- Windows branch body given the `netstat -ano` stdout. -/
def getListeningPortsWindows (pidStr : String) (stdout : String) : List String :=
  jsSetToArray ((splitLines stdout).filterMap (winLinePort pidStr))

def listenLitChars : List Char := "(LISTEN)".data

/-- Match regex `:(\d+)\s+\(LISTEN\)` at the head of `l`: a colon, a maximal
non-empty digit run, a maximal non-empty whitespace run, then the literal
`(LISTEN)`.  Returns the digit run, the whitespace run and the remainder. -/
def tryMatchListen : List Char → Option (List Char × List Char × List Char)
  | [] => none
  | c :: rest =>
    if c = ':' then
      let d := rest.takeWhile Char.isDigit
      let r1 := rest.dropWhile Char.isDigit
      let sp := r1.takeWhile Char.isWhitespace
      let r2 := r1.dropWhile Char.isWhitespace
      if d.isEmpty then none
      else if sp.isEmpty then none
      else if r2.take 8 = listenLitChars then some (d, sp, r2.drop 8)
      else none
    else none

/-- JS `stdout.match` with the global regex: repeatedly find the leftmost
match and continue after it.  Emits, for each match, the full matched
character run (colon, digits, whitespace, literal). -/
def scanListen (l : List Char) : List (List Char) :=
  match h : tryMatchListen l with
  | some (d, sp, after) => (':' :: (d ++ (sp ++ listenLitChars))) :: scanListen after
  | none =>
    match l with
    | [] => []
    | _ :: rest => scanListen rest
termination_by l.length
decreasing_by
  · cases l with
    | nil => simp [tryMatchListen] at h
    | cons c rest =>
      simp only [tryMatchListen] at h
      split at h
      · split at h
        · exact absurd h (by simp)
        · split at h
          · exact absurd h (by simp)
          · split at h
            · have hafter :
                  after = ((rest.dropWhile Char.isDigit).dropWhile Char.isWhitespace).drop 8 := by
                have hcopy := h
                simp only [Option.some.injEq, Prod.mk.injEq] at hcopy
                exact hcopy.2.2.symm
              have h1 :
                  ((rest.dropWhile Char.isDigit).dropWhile Char.isWhitespace).length ≤ rest.length :=
                le_trans ((List.dropWhile_sublist _).length_le)
                  ((List.dropWhile_sublist _).length_le)
              have h2 :
                  after.length ≤ ((rest.dropWhile Char.isDigit).dropWhile Char.isWhitespace).length := by
                rw [hafter, List.length_drop]; omega
              simp only [List.length_cons]
              omega
            · exact absurd h (by simp)
      · exact absurd h (by simp)
  · simp

/-- Regex `:(\d+)` (unanchored, first match): first colon followed by one or
more digits; the capture is the maximal digit run after that colon. -/
def firstColonDigits : List Char → Option (List Char)
  | [] => none
  | c :: rest =>
    if c = ':' then
      let d := rest.takeWhile Char.isDigit
      if d.isEmpty then firstColonDigits rest else some d
    else firstColonDigits rest

/-- Unix branch body (lines 317-324) given the `lsof` stdout: collect the
matches of the LISTEN regex, re-extract the digits from each match, and
deduplicate via a JS `Set`. -/
def getListeningPortsUnix (stdout : String) : List String :=
  jsSetToArray
    ((scanListen stdout.data).map (fun m => String.mk ((firstColonDigits m).getD [])))

/-- Full `getListeningPorts`.  The result pairs the returned port list with
the list of shell commands actually executed, so that "no OS query" is a
statement about the function's value.  `exec` is the `execAsync` oracle;
`.error` models a rejected promise (caught at line 326, yielding `[]`). -/
def getListeningPorts (pidStr : String) (isWindows : Bool)
    (exec : String → Except Unit String) : List String × List String :=
  if !regexNumTest pidStr then ([], [])
  else if isWindows then
    match exec "netstat -ano" with
    | .error _ => ([], ["netstat -ano"])
    | .ok stdout => (getListeningPortsWindows pidStr stdout, ["netstat -ano"])
  else
    let cmd := "lsof -nP -a -p " ++ pidStr ++ " -iTCP -sTCP:LISTEN"
    match exec cmd with
    | .error _ => ([], [cmd])
    | .ok stdout => (getListeningPortsUnix stdout, [cmd])

/-! ## `fetchQuotas` (extension.ts lines 167-213)

A probe of one port is the awaited `fetch` call: it may reject (network
error), or resolve to a response with an `ok` flag (HTTP 2xx) and a body
whose `res.json()` may itself reject; a parsed body may lack the nested
`clientModelConfigs` field (read with `?.` and defaulted to `[]`). -/

structure ProbeResponse where
  ok : Bool
  body : Except Unit (Option (List ClientModelConfig))

/-- The port loop (lines 178-208).  The second component is instrumentation:
the ports that were actually probed, in probe order.  A rejected `fetch` or a
rejected `res.json()` is caught by the inner `catch` and the loop continues;
a 2xx response whose body parsed returns immediately. -/
def tryPorts (probe : String → Except Unit ProbeResponse) :
    List String → Option (List ClientModelConfig) × List String
  | [] => (none, [])
  | p :: rest =>
    match probe p with
    | .ok res =>
      if res.ok then
        match res.body with
        | .ok d => (some (d.getD []), [p])
        | .error _ =>
          let out := tryPorts probe rest
          (out.1, p :: out.2)
      else
        let out := tryPorts probe rest
        (out.1, p :: out.2)
    | .error _ =>
      let out := tryPorts probe rest
      (out.1, p :: out.2)

/-- `fetchQuotas`, parameterised by the outcomes of its awaited calls:
`locator` is `getProcessInfo()` (which may in principle reject — the outer
`catch` at line 209 covers it), `scanner` is `getListeningPorts(pid)`, and
`probe` is the per-port HTTP attempt.  First component: the returned record
list; second: the instrumented probe order. -/
def fetchQuotas (locator : Except Unit (Option ProcessInfo))
    (scanner : String → Except Unit (List String))
    (probe : String → Except Unit ProbeResponse) :
    List ClientModelConfig × List String :=
  match locator with
  | .error _ => ([], [])
  | .ok none => ([], [])
  | .ok (some info) =>
    match scanner info.pid with
    | .error _ => ([], [])
    | .ok ports =>
      match tryPorts probe ports with
      | (some models, probed) => (models, probed)
      | (none, probed) => ([], probed)

/-- The probe resolved with HTTP 2xx (`res.ok`). -/
def probeHttpOk : Except Unit ProbeResponse → Bool
  | .ok res => res.ok
  | .error _ => false

/-- The probe fully succeeded: resolved, HTTP 2xx, and its body parsed. -/
def probeSuccess : Except Unit ProbeResponse → Bool
  | .ok res =>
    res.ok && (match res.body with | .ok _ => true | .error _ => false)
  | .error _ => false

/-- The records a fully successful probe yields (missing field means `[]`). -/
def probeRecords : Except Unit ProbeResponse → List ClientModelConfig
  | .ok res => (match res.body with | .ok d => d.getD [] | .error _ => [])
  | .error _ => []

/-! ## The provider state machine (fields and methods of `QuotaProvider`) -/

structure RefreshState where
  nextFetchTime : Int
  cachedModels : List ClientModelConfig
  isRefreshing : Bool
  lastError : Bool
deriving DecidableEq

/-- Field initialisers (lines 37-41), at construction time `now`. -/
def initState (now : Int) : RefreshState :=
  { nextFetchTime := now + REFRESH_INTERVAL_MS
    cachedModels := []
    isRefreshing := false
    lastError := false }

/-- Observable actions of one `refresh()` run, in program order. -/
inductive RefreshEvent where
  | setNextFetch (t : Int)
  | invokeFetch
  | fireTreeData
deriving DecidableEq

/-- The result of `await this.fetchQuotas()`: `.error` models a rejected
promise (handled by the `catch` at line 79). -/
abbrev FetchOutcome := Except Unit (List ClientModelConfig)

/-- `refresh()` (lines 65-86) as a state transition, given the time `now` at
which it runs and the outcome of its awaited fetch.  Also returns the trace
of observable actions the run performs. -/
def refresh (s : RefreshState) (now : Int) (outcome : FetchOutcome) :
    RefreshState × List RefreshEvent :=
  if s.isRefreshing then (s, [])
  else
    let s1 : RefreshState :=
      { s with isRefreshing := true, nextFetchTime := now + REFRESH_INTERVAL_MS }
    let s2 : RefreshState :=
      match outcome with
      | .ok models =>
        if models.length > 0 then
          { s1 with cachedModels := models, lastError := false }
        else if s1.cachedModels.length = 0 then { s1 with lastError := true }
        else s1
      | .error _ => { s1 with lastError := true }
    ({ s2 with isRefreshing := false },
     [RefreshEvent.setNextFetch (now + REFRESH_INTERVAL_MS),
      RefreshEvent.invokeFetch, RefreshEvent.fireTreeData])

/-- `manualRefresh()` (lines 61-63) only awaits `refresh()`. -/
def manualRefresh (s : RefreshState) (now : Int) (outcome : FetchOutcome) :
    RefreshState × List RefreshEvent :=
  refresh s now outcome

/-- "lastError is true only if cachedModels is empty", as a boolean. -/
def errInvB (s : RefreshState) : Bool :=
  !s.lastError || s.cachedModels.isEmpty

/-- The per-model item of the tree view (lines 126-162), restricted to the
quota data it renders: the label and `Math.round((m.quotaInfo?.remainingFraction ?? 1) * 100)`. -/
def modelRecordView (m : ClientModelConfig) : String × Int :=
  (m.label,
   jsMathRound (((m.quotaInfo.bind QuotaInfo.remainingFraction).getD 1) * 100))

/-- The quota part of what `getChildren` renders (the countdown item, which
depends only on the clock, is omitted): error item, loading item, or the
per-model items. -/
inductive ChildrenView where
  | errorView
  | loadingView
  | models (items : List (String × Int))
deriving DecidableEq

def childrenViewOf (s : RefreshState) : ChildrenView :=
  if s.cachedModels.length = 0 && s.lastError then ChildrenView.errorView
  else if s.cachedModels.length = 0 then ChildrenView.loadingView
  else ChildrenView.models (s.cachedModels.map modelRecordView)

/-- `getChildren` for the root element (lines 92-165).  When the cache is
empty and no refresh is in flight it fires `this.refresh()` without awaiting
it; the synchronous prefix of that call runs before the items are built, and
the rest after, so the returned view reads the pre-call cache while the
returned state is the state once the triggered run completes (with fetch
outcome `out`).  Second component: whether a refresh was initiated. -/
def getChildren (s : RefreshState) (now : Int) (out : FetchOutcome) :
    RefreshState × Bool × ChildrenView :=
  if s.cachedModels.length = 0 && !s.isRefreshing then
    ((refresh s now out).1, true, childrenViewOf s)
  else
    (s, false, childrenViewOf s)

/-! ## Predicates used by the statements -/

/-- A well-formed port string: non-empty, decimal digits only. -/
def portOkB (p : String) : Bool :=
  !p.data.isEmpty && p.data.all Char.isDigit

/-- The validity test the Windows process loop applies to an entry. -/
def winValid (p : WinProc) : Bool :=
  (p.commandLine.getD "" ≠ "") && (p.processId ≠ "") && regexNumTest p.processId

/-- Shape of every element `scanListen` emits. -/
def goodMatch (m : List Char) : Prop :=
  ∃ d sp, m = ':' :: (d ++ (sp ++ listenLitChars)) ∧
    d ≠ [] ∧ (∀ c ∈ d, c.isDigit = true) ∧
    sp ≠ [] ∧ (∀ c ∈ sp, c.isWhitespace = true)

/-! ## Concrete behaviours used to instantiate the theorems below -/

def mA : ClientModelConfig := ⟨"Model A", none⟩

/-- Probe behaviour where port "2" answers 2xx with an unparseable body and
port "3" answers 2xx with a parsed body. -/
def probeCx : String → Except Unit ProbeResponse := fun p =>
  if p = "2" then Except.ok ⟨true, Except.error ()⟩
  else if p = "3" then Except.ok ⟨true, Except.ok (some [mA])⟩
  else Except.ok ⟨false, Except.ok none⟩

/-- Probe behaviour where only port "5" fully succeeds. -/
def probeWit : String → Except Unit ProbeResponse := fun p =>
  if p = "5" then Except.ok ⟨true, Except.ok (some [mA])⟩
  else Except.ok ⟨false, Except.ok none⟩

/-- Probe behaviour where every port fails (non-2xx). -/
def probeAllFail : String → Except Unit ProbeResponse :=
  fun _ => Except.ok ⟨false, Except.ok none⟩

def wpGood : WinProc := ⟨"123", some "language_server --csrf_token=u"⟩

def wpBad : WinProc := ⟨"NaN", some "language_server --csrf_token=t"⟩

/-! ## Helper lemmas -/

theorem jsSetFold_nodup (l : List String) :
    ∀ acc : List String, acc.Nodup →
      (l.foldl (fun acc x => if x ∈ acc then acc else acc ++ [x]) acc).Nodup := by
  induction l with
  | nil => intro acc h; simpa using h
  | cons x xs ih =>
    intro acc h
    simp only [List.foldl_cons]
    by_cases hx : x ∈ acc
    · simpa [hx] using ih acc h
    · refine ih _ ?_
      simp only [hx, if_false]
      exact List.Nodup.append h (List.nodup_singleton x)
        (by intro a ha hb; simp at hb; subst hb; exact hx ha)

theorem jsSetFold_mem (l : List String) :
    ∀ (acc : List String) (x : String),
      x ∈ l.foldl (fun acc x => if x ∈ acc then acc else acc ++ [x]) acc →
      x ∈ acc ∨ x ∈ l := by
  induction l with
  | nil => intro acc x h; simp only [List.foldl_nil] at h; exact Or.inl h
  | cons y ys ih =>
    intro acc x h
    simp only [List.foldl_cons] at h
    rcases ih _ x h with hm | hm
    · by_cases hy : y ∈ acc
      · simp only [hy, if_true] at hm; exact Or.inl hm
      · simp only [hy, if_false, List.mem_append, List.mem_singleton] at hm
        rcases hm with hm | hm
        · exact Or.inl hm
        · exact Or.inr (by simp [hm])
    · exact Or.inr (List.mem_cons_of_mem _ hm)

theorem jsSetToArray_nodup (l : List String) : (jsSetToArray l).Nodup :=
  jsSetFold_nodup l [] List.nodup_nil

theorem jsSetToArray_mem {l : List String} {x : String}
    (h : x ∈ jsSetToArray l) : x ∈ l := by
  rcases jsSetFold_mem l [] x h with hm | hm
  · simp at hm
  · exact hm

theorem matchPortSuffix_ok {s : String} {p : String}
    (h : matchPortSuffix s = some p) : portOkB p = true := by
  unfold matchPortSuffix at h
  dsimp only at h
  split at h
  · exact absurd h (by simp)
  · rename_i hEmpty
    split at h
    · simp only [Option.some.injEq] at h
      subst h
      have hl : s.data.reverse.takeWhile Char.isDigit ≠ [] := by
        intro hc; rw [hc] at hEmpty; exact hEmpty rfl
      simp only [portOkB, Bool.and_eq_true]
      constructor
      · cases hrev : (s.data.reverse.takeWhile Char.isDigit).reverse with
        | nil => exact absurd (List.reverse_eq_nil_iff.mp hrev) hl
        | cons a t => simp [hrev]
      · rw [List.all_eq_true]
        intro c hc
        exact List.mem_takeWhile_imp (by simpa using hc)
    · exact absurd h (by simp)

theorem winLinePort_ok {pidStr line p : String}
    (h : winLinePort pidStr line = some p) : portOkB p = true := by
  unfold winLinePort at h
  dsimp only at h
  split at h
  · split at h
    · exact matchPortSuffix_ok h
    · exact absurd h (by simp)
  · exact absurd h (by simp)

theorem getListeningPortsWindows_ok (pidStr stdout : String) :
    (getListeningPortsWindows pidStr stdout).all portOkB = true ∧
      (getListeningPortsWindows pidStr stdout).Nodup := by
  constructor
  · rw [List.all_eq_true]
    intro p hp
    have hmem := jsSetToArray_mem hp
    rcases List.mem_filterMap.mp hmem with ⟨line, _, hline⟩
    exact winLinePort_ok hline
  · exact jsSetToArray_nodup _

theorem ws_not_digit {c : Char} (h : c.isWhitespace = true) : c.isDigit = false := by
  simp only [Char.isWhitespace, Bool.or_eq_true, decide_eq_true_eq] at h
  rcases h with ((h | h) | h) | h <;> (subst h; decide)

theorem takeWhile_append_of {p : Char → Bool} (d r : List Char)
    (hd : ∀ c ∈ d, p c = true)
    (hr : ∀ (c : Char) (t : List Char), r = c :: t → p c = false) :
    (d ++ r).takeWhile p = d := by
  induction d with
  | nil =>
    cases r with
    | nil => rfl
    | cons c t => simp [List.takeWhile_cons, hr c t rfl]
  | cons a d' ih =>
    have ha : p a = true := hd a (by simp)
    simp only [List.cons_append, List.takeWhile_cons, ha, if_true]
    rw [ih (fun c hc => hd c (by simp [hc]))]

theorem tryMatchListen_spec {l d sp after : List Char}
    (h : tryMatchListen l = some (d, sp, after)) :
    d ≠ [] ∧ (∀ c ∈ d, c.isDigit = true) ∧ sp ≠ [] ∧ (∀ c ∈ sp, c.isWhitespace = true) := by
  cases l with
  | nil => simp [tryMatchListen] at h
  | cons c rest =>
    simp only [tryMatchListen] at h
    split at h
    · split at h
      · exact absurd h (by simp)
      · split at h
        · exact absurd h (by simp)
        · split at h
          · rename_i hdE hspE _
            simp only [Option.some.injEq, Prod.mk.injEq] at h
            obtain ⟨hd, hsp, _⟩ := h
            subst hd; subst hsp
            refine ⟨?_, ?_, ?_, ?_⟩
            · intro hc; rw [hc] at hdE; exact hdE rfl
            · intro x hx; exact List.mem_takeWhile_imp hx
            · intro hc; rw [hc] at hspE; exact hspE rfl
            · intro x hx; exact List.mem_takeWhile_imp hx
          · exact absurd h (by simp)
    · exact absurd h (by simp)

theorem scanListen_eq_some {l d sp after : List Char}
    (h : tryMatchListen l = some (d, sp, after)) :
    scanListen l = (':' :: (d ++ (sp ++ listenLitChars))) :: scanListen after := by
  rw [scanListen.eq_def]
  split
  · rename_i d' sp' after' heq
    rw [h] at heq
    simp only [Option.some.injEq, Prod.mk.injEq] at heq
    rw [heq.1, heq.2.1, heq.2.2]
  · rename_i heq
    rw [h] at heq
    exact absurd heq (by simp)

theorem scanListen_nil : scanListen [] = [] := by
  rw [scanListen.eq_def]
  rfl

theorem scanListen_cons_none {c : Char} {rest : List Char}
    (h : tryMatchListen (c :: rest) = none) :
    scanListen (c :: rest) = scanListen rest := by
  rw [scanListen.eq_def]
  split
  · rename_i d' sp' after' heq
    rw [h] at heq
    exact absurd heq (by simp)
  · rfl

theorem scanListen_mem : ∀ (l : List Char), ∀ m ∈ scanListen l, goodMatch m := by
  intro l
  induction l using scanListen.induct with
  | case1 l d sp after hmatch ih =>
    intro m hm
    rw [scanListen_eq_some hmatch] at hm
    simp only [List.mem_cons] at hm
    rcases hm with hm | hm
    · obtain ⟨hd, hdig, hsp, hws⟩ := tryMatchListen_spec hmatch
      exact ⟨d, sp, hm, hd, hdig, hsp, hws⟩
    · exact ih m hm
  | case2 hnone =>
    intro m hm
    rw [scanListen_nil] at hm
    simp at hm
  | case3 head rest hnone hnone2 ih =>
    intro m hm
    rw [scanListen_cons_none hnone] at hm
    exact ih m hm

theorem firstColonDigits_good {d sp : List Char} (hd : d ≠ [])
    (hdig : ∀ c ∈ d, c.isDigit = true) (hsp : sp ≠ [])
    (hws : ∀ c ∈ sp, c.isWhitespace = true) :
    firstColonDigits (':' :: (d ++ (sp ++ listenLitChars))) = some d := by
  have htake : (d ++ (sp ++ listenLitChars)).takeWhile Char.isDigit = d := by
    apply takeWhile_append_of
    · exact hdig
    · intro c t hEq
      cases sp with
      | nil => exact absurd rfl hsp
      | cons a t' =>
        have hc : a = c := by
          simp only [List.cons_append, List.cons.injEq] at hEq
          exact hEq.1
        rw [← hc]
        exact ws_not_digit (hws a (by simp))
  have hdE : d.isEmpty = false := by
    cases d with
    | nil => exact absurd rfl hd
    | cons a t => rfl
  simp [firstColonDigits, htake, hdE]

theorem getListeningPortsUnix_ok (stdout : String) :
    (getListeningPortsUnix stdout).all portOkB = true ∧
      (getListeningPortsUnix stdout).Nodup := by
  constructor
  · rw [List.all_eq_true]
    intro p hp
    have hmem := jsSetToArray_mem hp
    rcases List.mem_map.mp hmem with ⟨m, hm, hEq⟩
    obtain ⟨d, sp, hshape, hd, hdig, hsp, hws⟩ := scanListen_mem _ m hm
    subst hshape
    rw [firstColonDigits_good hd hdig hsp hws] at hEq
    subst hEq
    have hdE : d.isEmpty = false := by
      cases d with
      | nil => exact absurd rfl hd
      | cons a t => rfl
    simp only [Option.getD_some, portOkB, Bool.and_eq_true]
    refine ⟨by simp [hdE], ?_⟩
    rw [List.all_eq_true]
    intro c hc
    exact hdig c hc
  · exact jsSetToArray_nodup _

theorem tryPorts_all_fail {probe : String → Except Unit ProbeResponse} :
    ∀ ports : List String, (∀ p ∈ ports, probeSuccess (probe p) = false) →
      tryPorts probe ports = (none, ports) := by
  intro ports h
  induction ports with
  | nil => rfl
  | cons p rest ih =>
    have hp := h p (by simp)
    have hrest := ih (fun q hq => h q (by simp [hq]))
    simp only [tryPorts]
    cases hpp : probe p with
    | error e => simp [hrest]
    | ok res =>
      cases hok : res.ok with
      | false => simp [hok, hrest]
      | true =>
        cases hbody : res.body with
        | ok dta =>
          exfalso
          rw [hpp] at hp
          simp [probeSuccess, hok, hbody] at hp
        | error e => simp [hok, hbody, hrest]

theorem tryPorts_first_success {probe : String → Except Unit ProbeResponse}
    {b : String} {post : List String} (pre : List String)
    (hpre : ∀ a ∈ pre, probeSuccess (probe a) = false)
    (hb : probeSuccess (probe b) = true) :
    tryPorts probe (pre ++ b :: post) =
      (some (probeRecords (probe b)), pre ++ [b]) := by
  induction pre with
  | nil =>
    simp only [List.nil_append]
    cases hpb : probe b with
    | error e => rw [hpb] at hb; simp [probeSuccess] at hb
    | ok res =>
      cases hok : res.ok with
      | false => rw [hpb] at hb; simp [probeSuccess, hok] at hb
      | true =>
        cases hbody : res.body with
        | error e => rw [hpb] at hb; simp [probeSuccess, hok, hbody] at hb
        | ok dta => simp [tryPorts, hpb, hok, hbody, probeRecords]
  | cons a pre' ih =>
    have ha := hpre a (by simp)
    have ih' := ih (fun x hx => hpre x (by simp [hx]))
    simp only [List.cons_append, tryPorts]
    cases hpa : probe a with
    | error e => simp [ih']
    | ok res =>
      cases hok : res.ok with
      | false => simp [hok, ih']
      | true =>
        cases hbody : res.body with
        | ok dta =>
          exfalso
          rw [hpa] at ha
          simp [probeSuccess, hok, hbody] at ha
        | error e => simp [hok, hbody, ih']

/-! ## Claims -/

/-- C1: whenever `isRefreshing` is true, `refresh()` — called directly or via
`manualRefresh()` — returns immediately with the state unchanged (so
`cachedModels`, `lastError` and `nextFetchTime` keep their values) and with an
empty action trace, i.e. the fetch pipeline is not invoked a second time. -/
theorem C1_refresh_guard_noop (s : RefreshState) (now : Int) (out : FetchOutcome)
    (h : s.isRefreshing = true) :
    refresh s now out = (s, []) ∧ manualRefresh s now out = (s, []) := by
  unfold manualRefresh refresh
  simp [h]

/-- C1 witness: the guard theorem applied to a concrete in-flight state. -/
theorem C1_witness :
    (⟨0, [], true, false⟩ : RefreshState).isRefreshing = true ∧
      (refresh ⟨0, [], true, false⟩ 5 (Except.ok [mA]) = (⟨0, [], true, false⟩, []) ∧
        manualRefresh ⟨0, [], true, false⟩ 5 (Except.ok [mA]) = (⟨0, [], true, false⟩, [])) :=
  ⟨rfl, C1_refresh_guard_noop ⟨0, [], true, false⟩ 5 (Except.ok [mA]) rfl⟩

/-- C2: a `refresh()` whose fetch returns zero records (including an
HTTP-level success carrying an empty list) leaves a non-empty `cachedModels`
and `lastError` exactly as they were before the call. -/
theorem C2_empty_fetch_preserves_cache (s : RefreshState) (now : Int)
    (h : s.cachedModels.isEmpty = false) :
    (refresh s now (Except.ok [])).1.cachedModels = s.cachedModels ∧
      (refresh s now (Except.ok [])).1.lastError = s.lastError := by
  by_cases hr : s.isRefreshing
  · simp [refresh, hr]
  · have hlen : ¬(s.cachedModels.length = 0) := by
      intro hc
      rw [List.length_eq_zero] at hc
      rw [hc] at h
      exact absurd h (by decide)
    simp [refresh, hr, hlen]

/-- C2 witness: empty fetch result against a concrete populated cache. -/
theorem C2_witness :
    (⟨0, [mA], false, false⟩ : RefreshState).cachedModels.isEmpty = false ∧
      ((refresh ⟨0, [mA], false, false⟩ 7 (Except.ok [])).1.cachedModels
          = (⟨0, [mA], false, false⟩ : RefreshState).cachedModels ∧
        (refresh ⟨0, [mA], false, false⟩ 7 (Except.ok [])).1.lastError
          = (⟨0, [mA], false, false⟩ : RefreshState).lastError) :=
  ⟨rfl, C2_empty_fetch_preserves_cache ⟨0, [mA], false, false⟩ 7 rfl⟩

/-- C3 counterexample: the claim extends the invariant "lastError is true
only if cachedModels is empty" to refresh executions whose fetch throws, but
the `catch` branch sets `lastError` unconditionally: starting from a state
with a populated cache that satisfies the invariant, a throwing fetch leaves
a state that violates it. -/
theorem C3_counterexample :
    errInvB ⟨0, [mA], false, false⟩ = true ∧
      errInvB (refresh ⟨0, [mA], false, false⟩ 0 (Except.error ())).1 = false := by
  decide

/-- C3 (amended): the predicate "lastError is true only if cachedModels is
empty" holds in the initial state and is preserved by every completed
`refresh()` execution whose fetch call returns normally (as the implemented
`fetchQuotas` always does); an execution whose fetch throws sets `lastError`
unconditionally and can violate the predicate when the cache is non-empty. -/
theorem C3_error_invariant_normal (t : Int) (s : RefreshState) (now : Int)
    (models : List ClientModelConfig) (h : errInvB s = true) :
    errInvB (initState t) = true ∧
      errInvB (refresh s now (Except.ok models)).1 = true := by
  refine ⟨rfl, ?_⟩
  by_cases hr : s.isRefreshing
  · simpa [refresh, hr] using h
  · cases models with
    | nil =>
      by_cases hc : s.cachedModels.length = 0
      · have : s.cachedModels = [] := List.length_eq_zero.mp hc
        simp [refresh, hr, hc, errInvB, this]
      · simpa [refresh, hr, hc, errInvB] using h
    | cons m ms =>
      simp [refresh, hr, errInvB]

/-- C3 witness: invariant preservation on a concrete normal refresh. -/
theorem C3_witness :
    errInvB ⟨0, [], false, true⟩ = true ∧
      (errInvB (initState 9) = true ∧
        errInvB (refresh ⟨0, [], false, true⟩ 9 (Except.ok [mA])).1 = true) :=
  ⟨rfl, C3_error_invariant_normal 9 ⟨0, [], false, true⟩ 9 [mA] rfl⟩

/-- C4 counterexample: with scanner order ["1", "2", "3"], port "2" is the
first probe returning HTTP 2xx (its body does not parse), yet the pipeline
goes on to probe port "3": a later port is probed after the first 2xx
response, so "first 2xx wins" is false as stated. -/
theorem C4_counterexample :
    probeHttpOk (probeCx "1") = false ∧
      probeHttpOk (probeCx "2") = true ∧
      (fetchQuotas (Except.ok (some ⟨"123", "tok"⟩))
          (fun _ => Except.ok ["1", "2", "3"]) probeCx).2 = ["1", "2", "3"] := by
  decide

/-- C4 (amended): `fetchQuotas` probes the scanner's ports in order and stops
at the first probe that returns HTTP 2xx *and whose body parses*: it returns
that probe's records (the nested list, or [] when the field is missing) and
the probe trace is exactly the earlier ports followed by the winning port, so
no later port is ever probed; a 2xx response whose body fails to parse is
treated like a failed probe and the scan continues. -/
theorem C4_first_parsed_success_wins (info : ProcessInfo)
    (probe : String → Except Unit ProbeResponse) (pre post : List String)
    (b : String) (hpre : ∀ a ∈ pre, probeSuccess (probe a) = false)
    (hb : probeSuccess (probe b) = true) :
    fetchQuotas (Except.ok (some info)) (fun _ => Except.ok (pre ++ b :: post)) probe
      = (probeRecords (probe b), pre ++ [b]) := by
  unfold fetchQuotas
  dsimp only
  rw [tryPorts_first_success pre hpre hb]

/-- C4 witness: ports ["9", "5", "7"] where "9" fails and "5" fully
succeeds: "7" is not probed. -/
theorem C4_witness :
    (∀ a ∈ (["9"] : List String), probeSuccess (probeWit a) = false) ∧
      probeSuccess (probeWit "5") = true ∧
      fetchQuotas (Except.ok (some ⟨"123", "tok"⟩))
          (fun _ => Except.ok (["9"] ++ "5" :: ["7"])) probeWit
        = (probeRecords (probeWit "5"), ["9"] ++ ["5"]) :=
  ⟨by decide, by decide,
    C4_first_parsed_success_wins ⟨"123", "tok"⟩ probeWit ["9"] ["7"] "5"
      (by decide) (by decide)⟩

/-- C5: `fetchQuotas` is a total function of arbitrary locator, scanner and
probe behaviours — every stage outcome, including thrown exceptions
(`.error`) and malformed bodies, is consumed — and it returns the empty
record list whenever no probe fully succeeds. -/
theorem C5_fetch_never_throws (locator : Except Unit (Option ProcessInfo))
    (scanner : String → Except Unit (List String))
    (probe : String → Except Unit ProbeResponse)
    (h : ∀ p, probeSuccess (probe p) = false) :
    (fetchQuotas locator scanner probe).1 = [] := by
  unfold fetchQuotas
  cases locator with
  | error e => rfl
  | ok oinfo =>
    cases oinfo with
    | none => rfl
    | some info =>
      cases hscan : scanner info.pid with
      | error e => simp [hscan]
      | ok ports =>
        simp [hscan, tryPorts_all_fail ports (fun p _ => h p)]

/-- C5 witness: all stages throwing or failing yields the empty list. -/
theorem C5_witness :
    probeSuccess (probeAllFail "4000") = false ∧
      (fetchQuotas (Except.error ()) (fun _ => Except.error ()) probeAllFail).1 = [] :=
  ⟨by decide,
    C5_fetch_never_throws (Except.error ()) (fun _ => Except.error ()) probeAllFail
      (fun _ => rfl)⟩

/-- C6: when the pid is not a non-empty string of decimal digits,
`getListeningPorts` returns no ports and runs no shell command, and its
result does not depend on the OS oracle at all. -/
theorem C6_injection_safe (pidStr : String) (w : Bool)
    (ex1 ex2 : String → Except Unit String) (h : regexNumTest pidStr = false) :
    getListeningPorts pidStr w ex1 = ([], []) ∧
      getListeningPorts pidStr w ex1 = getListeningPorts pidStr w ex2 := by
  unfold getListeningPorts
  simp [h]

/-- C6 witness: a shell-injection attempt yields no ports and no command. -/
theorem C6_witness :
    regexNumTest "12a; rm -rf tmp" = false ∧
      (getListeningPorts "12a; rm -rf tmp" false (fun _ => Except.ok "x") = ([], []) ∧
        getListeningPorts "12a; rm -rf tmp" false (fun _ => Except.ok "x")
          = getListeningPorts "12a; rm -rf tmp" false (fun _ => Except.error ())) :=
  ⟨by decide,
    C6_injection_safe "12a; rm -rf tmp" false (fun _ => Except.ok "x")
      (fun _ => Except.error ()) (by decide)⟩

/-- C7: every `refresh()` that passes the guard emits exactly one deadline
write, to now + REFRESH_INTERVAL_MS, and it precedes the fetch invocation in
the action trace; the deadline is not written again, so the final state's
`nextFetchTime` is that value whatever the fetch outcome (success, empty, or
thrown). -/
theorem C7_deadline_set_before_fetch (s : RefreshState) (now : Int)
    (out : FetchOutcome) (h : s.isRefreshing = false) :
    (refresh s now out).2 =
        [RefreshEvent.setNextFetch (now + REFRESH_INTERVAL_MS),
          RefreshEvent.invokeFetch, RefreshEvent.fireTreeData] ∧
      (refresh s now out).1.nextFetchTime = now + REFRESH_INTERVAL_MS := by
  constructor
  · simp [refresh, h]
  · unfold refresh
    simp only [h, Bool.false_eq_true, if_false]
    cases out with
    | error e => rfl
    | ok models =>
      by_cases hm : models.length > 0
      · simp [hm]
      · by_cases hc : s.cachedModels.length = 0 <;> simp [hm, hc]

/-- C7 witness: deadline behaviour on a concrete guarded-through refresh with
a throwing fetch. -/
theorem C7_witness :
    (⟨0, [mA], false, false⟩ : RefreshState).isRefreshing = false ∧
      ((refresh ⟨0, [mA], false, false⟩ 2 (Except.error ())).2 =
          [RefreshEvent.setNextFetch (2 + REFRESH_INTERVAL_MS),
            RefreshEvent.invokeFetch, RefreshEvent.fireTreeData] ∧
        (refresh ⟨0, [mA], false, false⟩ 2 (Except.error ())).1.nextFetchTime
          = 2 + REFRESH_INTERVAL_MS) :=
  ⟨rfl, C7_deadline_set_before_fetch ⟨0, [mA], false, false⟩ 2 (Except.error ()) rfl⟩

/-- C8 counterexample: "getChildren never initiates a pipeline run" is false:
on an empty cache with no refresh in flight, `getChildren` fires a background
`refresh()` (trigger flag true) and the shared state mutates (the cache went
from empty to populated once the triggered run completed). -/
theorem C8_counterexample :
    (getChildren ⟨0, [], false, false⟩ 0 (Except.ok [mA])).2.1 = true ∧
      (getChildren ⟨0, [], false, false⟩ 0 (Except.ok [mA])).1.cachedModels = [mA] ∧
      (⟨0, [], false, false⟩ : RefreshState).cachedModels = [] := by
  decide

/-- C8 (amended): `getChildren` initiates a background refresh exactly when
`cachedModels` is empty and `isRefreshing` is false; whenever the cache is
non-empty it mutates nothing, initiates nothing, renders precisely the cached
records, and repeated calls without an intervening refresh return identical
quota records. -/
theorem C8_view_accessor (s : RefreshState) (now now2 : Int)
    (out out2 : FetchOutcome) :
    ((getChildren s now out).2.1
        = (decide (s.cachedModels.length = 0) && !s.isRefreshing)) ∧
      (s.cachedModels.isEmpty = false →
        (getChildren s now out).1 = s ∧
          (getChildren s now out).2.1 = false ∧
          (getChildren s now out).2.2
            = ChildrenView.models (s.cachedModels.map modelRecordView) ∧
          (getChildren s now out).2.2 = (getChildren s now2 out2).2.2) := by
  constructor
  · unfold getChildren
    split
    · rename_i hcond
      exact hcond.symm
    · rename_i hcond
      simp only [Bool.not_eq_true] at hcond
      exact hcond.symm
  · intro h
    have hlen : ¬(s.cachedModels.length = 0) := by
      intro hc
      rw [List.length_eq_zero] at hc
      rw [hc] at h
      exact absurd h (by decide)
    have hcond : (decide (s.cachedModels.length = 0) && !s.isRefreshing) = false := by
      simp [hlen]
    unfold getChildren
    rw [hcond]
    refine ⟨rfl, rfl, ?_, rfl⟩
    unfold childrenViewOf
    simp [hlen]

/-- C8 witness: the accessor on a concrete populated state. -/
theorem C8_witness :
    (⟨3, [mA], false, false⟩ : RefreshState).cachedModels.isEmpty = false ∧
      ((getChildren ⟨3, [mA], false, false⟩ 1 (Except.ok []) ).1 = ⟨3, [mA], false, false⟩ ∧
        (getChildren ⟨3, [mA], false, false⟩ 1 (Except.ok [])).2.1 = false ∧
        (getChildren ⟨3, [mA], false, false⟩ 1 (Except.ok [])).2.2
          = ChildrenView.models ((⟨3, [mA], false, false⟩ : RefreshState).cachedModels.map modelRecordView) ∧
        (getChildren ⟨3, [mA], false, false⟩ 1 (Except.ok [])).2.2
          = (getChildren ⟨3, [mA], false, false⟩ 2 (Except.error ())).2.2) :=
  ⟨rfl,
    (C8_view_accessor ⟨3, [mA], false, false⟩ 1 2 (Except.ok []) (Except.error ())).2 rfl⟩

/-- C9 counterexample: on the Windows path, a first enumeration entry whose
PID string is not numeric is not treated as "no match": the loop falls
through and returns the second entry. -/
theorem C9_counterexample :
    regexNumTest wpBad.processId = false ∧
      getProcessInfoWindows [wpBad, wpGood] = some ⟨"123", "u"⟩ := by
  decide

/-- C9 (amended): on the Windows path the first enumeration entry with a
non-empty command line and a strictly numeric PID wins, in enumeration order
and with no further ranking, while entries failing that validation are
skipped rather than ending the search; on the Unix path only the first output
line is ever considered, and a non-numeric PID field there yields "no match"
(none). -/
theorem C9_first_match :
    (∀ (p : WinProc) (rest : List WinProc), winValid p = true →
        getProcessInfoWindows (p :: rest)
          = some ⟨p.processId, extractCsrf (p.commandLine.getD "")⟩) ∧
      (∀ (p : WinProc) (rest : List WinProc), winValid p = false →
          getProcessInfoWindows (p :: rest) = getProcessInfoWindows rest) ∧
      (∀ (stdout pidStr : String),
          (jsSplitWs (((listSplit (fun c => c = '\n') stdout.data).map String.mk).headD "")).get? 1
              = some pidStr →
          regexNumTest pidStr = false → getProcessInfoUnix stdout = none) := by
  refine ⟨?_, ?_, ?_⟩
  · intro p rest h
    unfold winValid at h
    conv_lhs => rw [getProcessInfoWindows]
    rw [h]
    rfl
  · intro p rest h
    unfold winValid at h
    conv_lhs => rw [getProcessInfoWindows]
    rw [h]
    rfl
  · intro stdout pidStr hget hnum
    unfold getProcessInfoUnix
    dsimp only
    by_cases hline :
        (((listSplit (fun c => c = '\n') stdout.data).map String.mk).headD "") = ""
    · rw [hline] at hget
      have hnone : (jsSplitWs "").get? 1 = none := by decide
      rw [hnone] at hget
      exact absurd hget (by simp)
    · rw [if_neg hline, hget]
      simp [hnum]

/-- C9 witness: the three parts at concrete inputs — a valid first Windows
entry wins, an invalid first Windows entry is skipped, and a Unix first line
with a non-numeric PID yields none. -/
theorem C9_witness :
    winValid wpGood = true ∧
      getProcessInfoWindows [wpGood, wpBad]
        = some ⟨wpGood.processId, extractCsrf (wpGood.commandLine.getD "")⟩ ∧
      winValid wpBad = false ∧
      getProcessInfoWindows [wpBad, wpGood] = getProcessInfoWindows [wpGood] ∧
      (jsSplitWs (((listSplit (fun c => c = '\n') "user 43a1 x".data).map String.mk).headD "")).get? 1
        = some "43a1" ∧
      regexNumTest "43a1" = false ∧
      getProcessInfoUnix "user 43a1 x" = none :=
  ⟨by decide, C9_first_match.1 wpGood [wpBad] (by decide), by decide,
    C9_first_match.2.1 wpBad [wpGood] (by decide), by decide, by decide,
    C9_first_match.2.2 "user 43a1 x" "43a1" (by decide) (by decide)⟩

/-- C10: every element of the port list returned by `getListeningPorts`, on
both the Windows and the Unix code paths and for every oracle output, is a
non-empty string of decimal digits, and the list contains no duplicates —
so interpolating a returned port into the probe URL cannot alter the URL's
structure. -/
theorem C10_ports_wellformed (pidStr : String) (w : Bool)
    (exec : String → Except Unit String) :
    (getListeningPorts pidStr w exec).1.all portOkB = true ∧
      (getListeningPorts pidStr w exec).1.Nodup := by
  unfold getListeningPorts
  by_cases hn : regexNumTest pidStr
  · simp only [hn, Bool.not_true, Bool.false_eq_true, if_false]
    cases w with
    | true =>
      simp only [if_true]
      cases hex : exec "netstat -ano" with
      | error e => simp
      | ok stdout => exact getListeningPortsWindows_ok pidStr stdout
    | false =>
      simp only [Bool.false_eq_true, if_false]
      cases hex : exec ("lsof -nP -a -p " ++ pidStr ++ " -iTCP -sTCP:LISTEN") with
      | error e => simp
      | ok stdout => exact getListeningPortsUnix_ok stdout
  · simp only [Bool.not_eq_true] at hn
    simp [hn]

end Quota
